import Mathlib

/-!
Verification of the UAV strategic deconfliction core
(`conflict_checker.py` and `data_models.py`).

Modelling conventions.  The conflict-detection functions
(`interpolate_position`, `_find_drone_position`, `check_for_conflicts`)
perform only field arithmetic (addition, subtraction, multiplication,
division, absolute value and comparisons), so they are embedded over the
rationals `ℚ`, which model the exact real arithmetic of the source and
keep every definition computable and every predicate decidable.  The
trajectory builder (`convert_mission_to_trajectory`) computes a genuine
Euclidean square root, so that component is embedded over `ℝ` with
`Real.sqrt`.  Python's `raise ValueError` is embedded as `Except.error`,
and Python's `None` as `Option.none`.  The `while` loop of
`check_for_conflicts` is embedded as a recursion on the sample clock
whose termination is justified by the positivity of the time step,
exactly the condition under which the source loop terminates.
-/

/-- A single 3D spatial coordinate (`data_models.Waypoint`). -/
structure Waypoint where
  x : ℚ
  y : ℚ
  z : ℚ
  deriving DecidableEq, Repr

/-- A point in 4D space-time (`data_models.TimedWaypoint`): the inherited
spatial fields are flattened into the structure. -/
structure TimedWaypoint where
  x : ℚ
  y : ℚ
  z : ℚ
  time : ℚ
  deriving DecidableEq, Repr

/-- Another drone's known path (`data_models.SimulatedFlight`). -/
structure SimulatedFlight where
  flight_id : String
  trajectory : List TimedWaypoint
  deriving DecidableEq, Repr

/-- One detected breach event (`data_models.Conflict`). -/
structure Conflict where
  time : ℚ
  location : Waypoint
  conflicted_with_flight_id : String
  deriving DecidableEq, Repr

/-- The two report statuses (`data_models.ConflictReport.status`). -/
inductive Status where
  | CLEAR
  | CONFLICT_DETECTED
  deriving DecidableEq, Repr

/-- The final output of the deconfliction service
(`data_models.ConflictReport`). -/
structure ConflictReport where
  status : Status
  conflicts : List Conflict
  deriving DecidableEq, Repr

/-- Linear interpolation of a drone position at a given time
(`conflict_checker.interpolate_position`). -/
def interpolate_position (start_wp end_wp : TimedWaypoint) (current_time : ℚ) : Waypoint :=
  if current_time ≤ start_wp.time then
    ⟨start_wp.x, start_wp.y, start_wp.z⟩
  else if end_wp.time ≤ current_time then
    ⟨end_wp.x, end_wp.y, end_wp.z⟩
  else
    let segment_duration := end_wp.time - start_wp.time
    if segment_duration = 0 then
      ⟨start_wp.x, start_wp.y, start_wp.z⟩
    else
      let time_elapsed := current_time - start_wp.time
      let fraction := time_elapsed / segment_duration
      ⟨start_wp.x + (end_wp.x - start_wp.x) * fraction,
       start_wp.y + (end_wp.y - start_wp.y) * fraction,
       start_wp.z + (end_wp.z - start_wp.z) * fraction⟩

/-- Position lookup on a trajectory (`conflict_checker._find_drone_position`):
scan the consecutive legs in order and interpolate inside the first leg
whose time span contains `current_time`; `none` when no leg matches. -/
def find_drone_position : List TimedWaypoint → ℚ → Option Waypoint
  | wp_start :: wp_end :: rest, current_time =>
    if wp_start.time ≤ current_time ∧ current_time ≤ wp_end.time then
      some (interpolate_position wp_start wp_end current_time)
    else
      find_drone_position (wp_end :: rest) current_time
  | _, _ => none

/-- Round-half-to-even to an integer, the rounding rule of Python's
built-in `round` under exact arithmetic. -/
def round_half_even (q : ℚ) : ℤ :=
  let f := ⌊q⌋
  let r := q - (f : ℚ)
  if r < 1 / 2 then f
  else if 1 / 2 < r then f + 1
  else if f % 2 = 0 then f else f + 1

/-- Python's `round(q, 2)`: round to two decimal places, half to even. -/
def round2 (q : ℚ) : ℚ := (round_half_even (q * 100) : ℚ) / 100

/-- The sample clock of the `while current_time <= mission_end` loop of
`conflict_checker.check_for_conflicts`: all values taken by
`current_time`, which starts at `cur` and advances by `step` while it
does not exceed `fin`.  Termination needs `0 < step`, exactly the
condition under which the source loop terminates. -/
def sampleTimes (cur fin step : ℚ) (hstep : 0 < step) : List ℚ :=
  if h : cur ≤ fin then
    cur :: sampleTimes (cur + step) fin step hstep
  else
    []
termination_by (⌊(fin - cur) / step⌋ + 1).toNat
decreasing_by
  have h0 : (0 : ℚ) ≤ (fin - cur) / step := by
    apply div_nonneg
    · linarith
    · exact le_of_lt hstep
  have hfl : 0 ≤ ⌊(fin - cur) / step⌋ := Int.floor_nonneg.mpr h0
  have heq : (fin - (cur + step)) / step = (fin - cur) / step - ((1 : ℤ) : ℚ) := by
    push_cast
    field_simp
    ring
  have hfloor : ⌊(fin - (cur + step)) / step⌋ = ⌊(fin - cur) / step⌋ - 1 := by
    rw [heq, Int.floor_sub_int]
  rw [hfloor]
  omega

/-- The body of one sampling instant of
`conflict_checker.check_for_conflicts`: look up the primary position
(skip the instant when absent), then for each simulated flight look up
its position (skip the flight when absent) and record a conflict when
the cylindrical buffer is breached. -/
def conflictsAt (primary_trajectory : List TimedWaypoint)
    (simulated_flights : List SimulatedFlight)
    (buffer_horizontal buffer_vertical : ℚ) (current_time : ℚ) : List Conflict :=
  match find_drone_position primary_trajectory current_time with
  | none => []
  | some primary_pos =>
    simulated_flights.filterMap (fun sim_flight =>
      match find_drone_position sim_flight.trajectory current_time with
      | none => none
      | some sim_pos =>
        let dx := primary_pos.x - sim_pos.x
        let dy := primary_pos.y - sim_pos.y
        let dz_vertical := |primary_pos.z - sim_pos.z|
        let dist_horizontal_sq := dx * dx + dy * dy
        let buffer_horizontal_sq := buffer_horizontal * buffer_horizontal
        if dist_horizontal_sq < buffer_horizontal_sq ∧ dz_vertical < buffer_vertical then
          some ⟨round2 current_time, primary_pos, sim_flight.flight_id⟩
        else
          none)

/-- The full list `all_conflicts` accumulated by the sampling loop of
`conflict_checker.check_for_conflicts`, in recording order: the loop
clock runs over `sampleTimes` and each instant contributes its
`conflictsAt` records. -/
def spatial_conflicts (primary_trajectory : List TimedWaypoint)
    (simulated_flights : List SimulatedFlight)
    (buffer_horizontal buffer_vertical : ℚ)
    (time_step : ℚ) (hstep : 0 < time_step) : List Conflict :=
  match primary_trajectory with
  | [] => []
  | p :: rest =>
    (sampleTimes p.time ((p :: rest).getLast (List.cons_ne_nil p rest)).time time_step hstep).flatMap
      (fun current_time =>
        conflictsAt (p :: rest) simulated_flights buffer_horizontal buffer_vertical current_time)

/-- The deduplication key used by `check_for_conflicts`:
`(conflict.conflicted_with_flight_id, conflict.time)`. -/
def conflictKey (c : Conflict) : String × ℚ :=
  (c.conflicted_with_flight_id, c.time)

/-- The deduplication pass of `conflict_checker.check_for_conflicts`
(`seen_ids_at_time` accumulator): keep a conflict only when its key has
not been seen before. -/
def dedup_aux (seen : List (String × ℚ)) : List Conflict → List Conflict
  | [] => []
  | c :: cs =>
    if conflictKey c ∈ seen then
      dedup_aux seen cs
    else
      c :: dedup_aux (conflictKey c :: seen) cs

/-- Deduplication by `(other_id, time)` keeping first occurrences, as in
`conflict_checker.check_for_conflicts`. -/
def dedup_conflicts (l : List Conflict) : List Conflict :=
  dedup_aux [] l

/-- Main deconfliction function
(`conflict_checker.check_for_conflicts`). -/
def check_for_conflicts (primary_trajectory : List TimedWaypoint)
    (mission_end_window : ℚ)
    (simulated_flights : List SimulatedFlight)
    (buffer_horizontal buffer_vertical : ℚ)
    (time_step : ℚ) (hstep : 0 < time_step) : ConflictReport :=
  match primary_trajectory with
  | [] => ⟨Status.CLEAR, []⟩
  | p :: rest =>
    let lastWp := (p :: rest).getLast (List.cons_ne_nil p rest)
    let mission_end := lastWp.time
    if mission_end > mission_end_window then
      ⟨Status.CONFLICT_DETECTED,
       [⟨mission_end, ⟨lastWp.x, lastWp.y, lastWp.z⟩, "MISSION_TIME_WINDOW_EXCEEDED"⟩]⟩
    else
      let all_conflicts :=
        spatial_conflicts (p :: rest) simulated_flights buffer_horizontal buffer_vertical
          time_step hstep
      if all_conflicts = [] then
        ⟨Status.CLEAR, []⟩
      else
        ⟨Status.CONFLICT_DETECTED, dedup_conflicts all_conflicts⟩

/-- A single 3D spatial coordinate over `ℝ`, the scalar field of the
trajectory builder (`data_models.Waypoint`). -/
structure RWaypoint where
  x : ℝ
  y : ℝ
  z : ℝ

/-- A point in 4D space-time over `ℝ` (`data_models.TimedWaypoint`). -/
structure RTimedWaypoint where
  x : ℝ
  y : ℝ
  z : ℝ
  time : ℝ

/-- The mission under deconfliction (`data_models.PrimaryMission`). -/
structure PrimaryMission where
  waypoints : List RWaypoint
  speed : ℝ
  mission_start_time : ℝ
  mission_end_time : ℝ

/-- The 3D Euclidean distance between two waypoints
(`conflict_checker.calculate_distance`). -/
noncomputable def calculate_distance (wp1 wp2 : RWaypoint) : ℝ :=
  Real.sqrt ((wp1.x - wp2.x) ^ 2 + (wp1.y - wp2.y) ^ 2 + (wp1.z - wp2.z) ^ 2)

open Classical in
/-- The loop of `conflict_checker.convert_mission_to_trajectory` over the
consecutive waypoint pairs: `wp1` is the previous waypoint, `trajectory`
the points emitted so far and `current_time` the running clock.  A
non-positive speed with a nonzero leg distance raises `ValueError`
(embedded as `Except.error`); a non-positive speed with a zero leg
distance emits the waypoint at the unchanged clock only when no emitted
point shares its exact coordinates. -/
noncomputable def convertLoop (speed : ℝ) :
    RWaypoint → List RWaypoint → List RTimedWaypoint → ℝ →
      Except String (List RTimedWaypoint)
  | _, [], trajectory, _ => Except.ok trajectory
  | wp1, wp2 :: rest, trajectory, current_time =>
    let distance := calculate_distance wp1 wp2
    if speed ≤ 0 then
      if 0 < distance then
        Except.error "Cannot travel between waypoints with zero or negative speed."
      else if ∃ t ∈ trajectory, t.x = wp2.x ∧ t.y = wp2.y ∧ t.z = wp2.z then
        convertLoop speed wp2 rest trajectory current_time
      else
        convertLoop speed wp2 rest
          (trajectory ++ [⟨wp2.x, wp2.y, wp2.z, current_time⟩]) current_time
    else
      let time_to_travel := distance / speed
      let new_time := current_time + time_to_travel
      convertLoop speed wp2 rest
        (trajectory ++ [⟨wp2.x, wp2.y, wp2.z, new_time⟩]) new_time

/-- Conversion of a mission into a timed trajectory
(`conflict_checker.convert_mission_to_trajectory`). -/
noncomputable def convert_mission_to_trajectory (mission : PrimaryMission)
    (actual_start_time : ℝ) : Except String (List RTimedWaypoint) :=
  match mission.waypoints with
  | [] => Except.ok []
  | first_wp :: rest =>
    convertLoop mission.speed first_wp rest
      [⟨first_wp.x, first_wp.y, first_wp.z, actual_start_time⟩] actual_start_time

/-- The 3D Euclidean distance between the spatial coordinates of two
trajectory points. -/
noncomputable def tw_distance (p q : RTimedWaypoint) : ℝ :=
  calculate_distance ⟨p.x, p.y, p.z⟩ ⟨q.x, q.y, q.z⟩

/-- Total Euclidean path length of a trajectory: the sum of the leg
distances between consecutive points. -/
noncomputable def path_length : List RTimedWaypoint → ℝ
  | p :: q :: rest => tw_distance p q + path_length (q :: rest)
  | _ => 0

/-! ### Helper lemmas -/

theorem dedup_conflicts_ne_nil (c : Conflict) (cs : List Conflict) :
    dedup_conflicts (c :: cs) ≠ [] := by
  simp [dedup_conflicts, dedup_aux]

theorem find_drone_position_short (traj : List TimedWaypoint)
    (hshort : traj.length < 2) (t : ℚ) : find_drone_position traj t = none := by
  match traj with
  | [] => rfl
  | [a] => rfl
  | a :: b :: r => exact absurd hshort (by simp)

theorem spatial_conflicts_singleton (wp : TimedWaypoint)
    (flights : List SimulatedFlight) (bh bv step : ℚ) (hstep : 0 < step) :
    spatial_conflicts [wp] flights bh bv step hstep = [] := by
  unfold spatial_conflicts
  exact List.flatMap_eq_nil_iff.mpr (fun t _ => rfl)

/-! ### C3 -/

/-- C3 counterexample: for the zero-duration leg `A = (0,0,0) at time 5`,
`B = (1,1,1) at time 5` and query time `t = 5` (a leg selected for `t`,
since `A.time ≤ 5 ≤ B.time`), the claim demands `B`'s coordinates
because `t ≥ B.time`, but the code returns `A`'s; and at `t = 6` the
claim's zero-duration clause demands `A`'s coordinates, but the code
returns `B`'s. -/
theorem c3_interpolation_counterexample :
    (TimedWaypoint.mk 0 0 0 5).time = (TimedWaypoint.mk 1 1 1 5).time ∧
    (TimedWaypoint.mk 1 1 1 5).time ≤ (5 : ℚ) ∧
    interpolate_position ⟨0, 0, 0, 5⟩ ⟨1, 1, 1, 5⟩ 5 ≠ ⟨1, 1, 1⟩ ∧
    interpolate_position ⟨0, 0, 0, 5⟩ ⟨1, 1, 1, 5⟩ 6 ≠ ⟨0, 0, 0⟩ := by
  refine ⟨rfl, by norm_num, ?_, ?_⟩ <;> decide

/-- C3 amended: the three branches of `interpolate_position` are
prioritized: `A`'s coordinates when `t ≤ A.time`; otherwise `B`'s
coordinates when `B.time ≤ t`; otherwise (`A.time < t < B.time`, so the
leg has positive duration and no division by zero occurs) the exact
affine blend of each coordinate. -/
theorem c3_interpolation_amended (A B : TimedWaypoint) (t : ℚ) :
    (t ≤ A.time → interpolate_position A B t = ⟨A.x, A.y, A.z⟩) ∧
    (A.time < t → B.time ≤ t → interpolate_position A B t = ⟨B.x, B.y, B.z⟩) ∧
    (A.time < t → t < B.time →
      interpolate_position A B t =
        ⟨A.x + (B.x - A.x) * ((t - A.time) / (B.time - A.time)),
         A.y + (B.y - A.y) * ((t - A.time) / (B.time - A.time)),
         A.z + (B.z - A.z) * ((t - A.time) / (B.time - A.time))⟩) := by
  refine ⟨?_, ?_, ?_⟩
  · intro h1
    unfold interpolate_position
    rw [if_pos h1]
  · intro h1 h2
    unfold interpolate_position
    rw [if_neg (not_le.mpr h1), if_pos h2]
  · intro h1 h2
    unfold interpolate_position
    rw [if_neg (not_le.mpr h1), if_neg (not_le.mpr h2)]
    have hdur : B.time - A.time ≠ 0 := sub_ne_zero.mpr (ne_of_gt (by linarith))
    simp only [hdur, if_false]

/-- C3 witness: on the leg from `(0,0,0)` at time `0` to `(10,0,0)` at
time `10`, the start point is returned at `t = 0`, the end point at
`t = 10`, and the affine blend at `t = 3`. -/
theorem c3_interpolation_witness :
    interpolate_position ⟨0, 0, 0, 0⟩ ⟨10, 0, 0, 10⟩ 0 = ⟨0, 0, 0⟩ ∧
    interpolate_position ⟨0, 0, 0, 0⟩ ⟨10, 0, 0, 10⟩ 10 = ⟨10, 0, 0⟩ ∧
    interpolate_position ⟨0, 0, 0, 0⟩ ⟨10, 0, 0, 10⟩ 3 =
      ⟨0 + (10 - 0) * ((3 - 0) / (10 - 0)),
       0 + (0 - 0) * ((3 - 0) / (10 - 0)),
       0 + (0 - 0) * ((3 - 0) / (10 - 0))⟩ :=
  ⟨(c3_interpolation_amended ⟨0, 0, 0, 0⟩ ⟨10, 0, 0, 10⟩ 0).1 (by decide),
   (c3_interpolation_amended ⟨0, 0, 0, 0⟩ ⟨10, 0, 0, 10⟩ 10).2.1 (by decide) (by decide),
   (c3_interpolation_amended ⟨0, 0, 0, 0⟩ ⟨10, 0, 0, 10⟩ 3).2.2 (by decide) (by decide)⟩

/-! ### C2 -/

/-- C2: for a non-empty primary trajectory whose last point's time
strictly exceeds the mission end window, `check_for_conflicts` returns
`CONFLICT_DETECTED` with exactly one conflict, carrying the id
`MISSION_TIME_WINDOW_EXCEEDED`, the last point's time and the last
point's coordinates — for every list of simulated flights, so the
tracked flights are never examined and no spatial conflict is reported
alongside the window violation. -/
theorem c2_window_exceeded (primary : List TimedWaypoint) (w : ℚ)
    (flights : List SimulatedFlight) (bh bv step : ℚ) (hstep : 0 < step)
    (hne : primary ≠ []) (hw : w < (primary.getLast hne).time) :
    check_for_conflicts primary w flights bh bv step hstep =
      ⟨Status.CONFLICT_DETECTED,
       [⟨(primary.getLast hne).time,
         ⟨(primary.getLast hne).x, (primary.getLast hne).y, (primary.getLast hne).z⟩,
         "MISSION_TIME_WINDOW_EXCEEDED"⟩]⟩ := by
  match primary, hne with
  | p :: rest, hne =>
    unfold check_for_conflicts
    dsimp only
    rw [if_pos hw]

/-- C2 witness: a two-point trajectory ending at time `10` with window
`5` yields exactly the synthetic window conflict. -/
theorem c2_window_exceeded_witness :
    check_for_conflicts [⟨0, 0, 0, 0⟩, ⟨10, 0, 0, 10⟩] 5
        [⟨"SIM", [⟨0, 0, 0, 0⟩, ⟨0, 0, 0, 10⟩]⟩] 5 2 1 (by norm_num) =
      ⟨Status.CONFLICT_DETECTED,
       [⟨10, ⟨10, 0, 0⟩, "MISSION_TIME_WINDOW_EXCEEDED"⟩]⟩ := by
  have h := c2_window_exceeded [⟨0, 0, 0, 0⟩, ⟨10, 0, 0, 10⟩] 5
    [⟨"SIM", [⟨0, 0, 0, 0⟩, ⟨0, 0, 0, 10⟩]⟩] 5 2 1 (by norm_num)
    (by simp) (by decide)
  simpa using h

/-! ### C9 -/

/-- C9: every report of `check_for_conflicts` has an empty conflict list
iff its status is `CLEAR`, and an empty primary trajectory always yields
the report `(CLEAR, [])`. -/
theorem c9_clear_iff_no_conflicts (primary : List TimedWaypoint) (w : ℚ)
    (flights : List SimulatedFlight) (bh bv step : ℚ) (hstep : 0 < step) :
    ((check_for_conflicts primary w flights bh bv step hstep).status = Status.CLEAR ↔
      (check_for_conflicts primary w flights bh bv step hstep).conflicts = []) ∧
    (primary = [] →
      check_for_conflicts primary w flights bh bv step hstep = ⟨Status.CLEAR, []⟩) := by
  cases primary with
  | nil => exact ⟨by simp [check_for_conflicts], fun _ => rfl⟩
  | cons p rest =>
    refine ⟨?_, by simp⟩
    unfold check_for_conflicts
    dsimp only
    split
    · simp
    · split
      · simp
      · rename_i hall
        simp only []
        constructor
        · intro hst
          exact absurd hst (by simp)
        · intro hconf
          rcases hempty : spatial_conflicts (p :: rest) flights bh bv step hstep with _ | ⟨c, cs⟩
          · exact absurd hempty hall
          · rw [hempty] at hconf
            exact absurd hconf (dedup_conflicts_ne_nil c cs)

/-- C9 witness: concrete instances of both conjuncts, with an empty
primary trajectory. -/
theorem c9_clear_iff_no_conflicts_witness :
    check_for_conflicts [] 5 [] 5 2 1 (by norm_num) = ⟨Status.CLEAR, []⟩ :=
  (c9_clear_iff_no_conflicts [] 5 [] 5 2 1 (by norm_num)).2 rfl

/-! ### C10 -/

/-- C10: a trajectory with fewer than two points has no position at any
time (even at the single point's own time), and consequently a one-point
primary trajectory whose time does not exceed the window always yields
the report `(CLEAR, [])`, for every set of simulated flights and all
buffers. -/
theorem c10_short_trajectory_absent :
    (∀ (traj : List TimedWaypoint), traj.length < 2 → ∀ t : ℚ,
        find_drone_position traj t = none) ∧
    (∀ (wp : TimedWaypoint) (w : ℚ) (flights : List SimulatedFlight)
        (bh bv step : ℚ) (hstep : 0 < step), wp.time ≤ w →
        check_for_conflicts [wp] w flights bh bv step hstep = ⟨Status.CLEAR, []⟩) := by
  refine ⟨find_drone_position_short, ?_⟩
  intro wp w flights bh bv step hstep hle
  unfold check_for_conflicts
  dsimp only
  simp only [List.getLast_singleton]
  rw [if_neg (not_lt.mpr hle), spatial_conflicts_singleton wp flights bh bv step hstep]
  simp

/-- C10 witness: the empty trajectory and a singleton trajectory have no
position even at the point's own time, and a one-point mission inside
its window is CLEAR. -/
theorem c10_short_trajectory_absent_witness :
    find_drone_position [⟨4, 5, 6, 7⟩] 7 = none ∧
    check_for_conflicts [⟨0, 0, 0, 3⟩] 5 [⟨"SIM", [⟨0, 0, 0, 0⟩, ⟨0, 0, 0, 10⟩]⟩]
        100 100 1 (by norm_num) = ⟨Status.CLEAR, []⟩ :=
  ⟨c10_short_trajectory_absent.1 [⟨4, 5, 6, 7⟩] (by decide) 7,
   c10_short_trajectory_absent.2 ⟨0, 0, 0, 3⟩ 5 [⟨"SIM", [⟨0, 0, 0, 0⟩, ⟨0, 0, 0, 10⟩]⟩]
     100 100 1 (by norm_num) (by decide)⟩

/-! ### C1 -/

/-- C1: at a sampled time at which both the primary position and a
tracked flight's position are defined, a conflict with that flight is
recorded by the sampling pass if and only if the squared horizontal
distance is strictly below the squared horizontal buffer and the
absolute vertical difference is strictly below the vertical buffer.
Flight ids are assumed to identify the flight uniquely within the list,
as the data model requires. -/
theorem c1_cylindrical_conflict_iff (primary : List TimedWaypoint)
    (flights : List SimulatedFlight) (bh bv t : ℚ)
    (sf : SimulatedFlight) (ppos spos : Waypoint)
    (hids : ∀ sf2 ∈ flights, sf2.flight_id = sf.flight_id → sf2 = sf)
    (hsf : sf ∈ flights)
    (hp : find_drone_position primary t = some ppos)
    (hs : find_drone_position sf.trajectory t = some spos) :
    ((⟨round2 t, ppos, sf.flight_id⟩ : Conflict) ∈ conflictsAt primary flights bh bv t) ↔
      ((ppos.x - spos.x) * (ppos.x - spos.x) + (ppos.y - spos.y) * (ppos.y - spos.y)
          < bh * bh ∧ |ppos.z - spos.z| < bv) := by
  unfold conflictsAt
  rw [hp]
  constructor
  · intro hmem
    rcases List.mem_filterMap.mp hmem with ⟨sf2, hsf2, heq⟩
    rcases hfind : find_drone_position sf2.trajectory t with _ | spos2
    · rw [hfind] at heq
      exact absurd heq (by simp)
    · rw [hfind] at heq
      dsimp only at heq
      by_cases hcond : (ppos.x - spos2.x) * (ppos.x - spos2.x)
          + (ppos.y - spos2.y) * (ppos.y - spos2.y) < bh * bh ∧ |ppos.z - spos2.z| < bv
      · rw [if_pos hcond] at heq
        have hid : sf2.flight_id = sf.flight_id := (Conflict.mk.injEq _ _ _ _ _ _).mp
          (Option.some_injective _ heq) |>.2.2
        have hsame : sf2 = sf := hids sf2 hsf2 hid
        rw [hsame] at hfind
        rw [hs] at hfind
        rcases Option.some_injective _ hfind with rfl
        exact hcond
      · rw [if_neg hcond] at heq
        exact absurd heq (by simp)
  · intro hcond
    refine List.mem_filterMap.mpr ⟨sf, hsf, ?_⟩
    rw [hs]
    dsimp only
    rw [if_pos hcond]

/-- C1 witness: two drones 0 m apart horizontally and 25 m apart
vertically; with `buffer_horizontal = 5` and `buffer_vertical = 2` no
conflict is recorded, while `buffer_vertical = 30` records one. -/
theorem c1_cylindrical_conflict_iff_witness :
    ((⟨round2 0, ⟨0, 0, 0⟩, "SIM"⟩ : Conflict) ∉
      conflictsAt [⟨0, 0, 0, 0⟩, ⟨0, 0, 0, 10⟩]
        [⟨"SIM", [⟨0, 0, 25, 0⟩, ⟨0, 0, 25, 10⟩]⟩] 5 2 0) ∧
    ((⟨round2 0, ⟨0, 0, 0⟩, "SIM"⟩ : Conflict) ∈
      conflictsAt [⟨0, 0, 0, 0⟩, ⟨0, 0, 0, 10⟩]
        [⟨"SIM", [⟨0, 0, 25, 0⟩, ⟨0, 0, 25, 10⟩]⟩] 5 30 0) := by
  constructor
  · intro hmem
    have h := (c1_cylindrical_conflict_iff [⟨0, 0, 0, 0⟩, ⟨0, 0, 0, 10⟩]
      [⟨"SIM", [⟨0, 0, 25, 0⟩, ⟨0, 0, 25, 10⟩]⟩] 5 2 0
      ⟨"SIM", [⟨0, 0, 25, 0⟩, ⟨0, 0, 25, 10⟩]⟩ ⟨0, 0, 0⟩ ⟨0, 0, 25⟩
      (by decide) (by decide) (by decide) (by decide)).mp hmem
    exact absurd h (by norm_num)
  · exact (c1_cylindrical_conflict_iff [⟨0, 0, 0, 0⟩, ⟨0, 0, 0, 10⟩]
      [⟨"SIM", [⟨0, 0, 25, 0⟩, ⟨0, 0, 25, 10⟩]⟩] 5 30 0
      ⟨"SIM", [⟨0, 0, 25, 0⟩, ⟨0, 0, 25, 10⟩]⟩ ⟨0, 0, 0⟩ ⟨0, 0, 25⟩
      (by decide) (by decide) (by decide) (by decide)).mpr (by norm_num)

/-! ### C8 -/

theorem sampleTimes_cons (cur fin step : ℚ) (hstep : 0 < step) (h : cur ≤ fin) :
    sampleTimes cur fin step hstep = cur :: sampleTimes (cur + step) fin step hstep := by
  rw [sampleTimes, dif_pos h]

theorem sampleTimes_nil (cur fin step : ℚ) (hstep : 0 < step) (h : ¬ cur ≤ fin) :
    sampleTimes cur fin step hstep = [] := by
  rw [sampleTimes, dif_neg h]

theorem mem_sampleTimes (cur fin step : ℚ) (hstep : 0 < step) (t : ℚ) :
    t ∈ sampleTimes cur fin step hstep ↔ ∃ k : ℕ, t = cur + k * step ∧ t ≤ fin := by
  induction cur, fin, step, hstep using sampleTimes.induct with
  | case1 cur fin step hstep h ih =>
    rw [sampleTimes_cons cur fin step hstep h]
    constructor
    · intro hmem
      rcases List.mem_cons.mp hmem with rfl | hmem2
      · exact ⟨0, by push_cast; ring_nf, h⟩
      · rcases ih.mp hmem2 with ⟨k, hk, hle⟩
        refine ⟨k + 1, ?_, hle⟩
        rw [hk]
        push_cast
        ring
    · rintro ⟨k, hk, hle⟩
      cases k with
      | zero =>
        apply List.mem_cons.mpr
        left
        rw [hk]
        push_cast
        ring
      | succ j =>
        apply List.mem_cons.mpr
        right
        apply ih.mpr
        refine ⟨j, ?_, hle⟩
        rw [hk]
        push_cast
        ring
  | case2 cur fin step hstep h =>
    rw [sampleTimes_nil cur fin step hstep h]
    simp only [List.not_mem_nil, false_iff]
    rintro ⟨k, hk, hle⟩
    have hk0 : (0 : ℚ) ≤ (k : ℚ) * step := mul_nonneg (Nat.cast_nonneg k) (le_of_lt hstep)
    apply h
    calc cur ≤ cur + (k : ℚ) * step := by linarith
    _ = t := hk.symm
    _ ≤ fin := hle

/-- C8 counterexample: with `mission_start = 0`, `mission_finish = 5/2`
and `step = 1`, the sampling clock takes exactly the values
`[0, 1, 2]` and `mission_finish = 5/2` itself is never sampled, refuting
the claim that the finish time is among the sampled times even when it
is not an exact multiple of the step past the start. -/
theorem c8_sampling_counterexample :
    sampleTimes 0 (5 / 2) 1 (by norm_num) = [0, 1, 2] ∧
    (5 / 2 : ℚ) ∉ sampleTimes 0 (5 / 2) 1 (by norm_num) := by
  have he : sampleTimes 0 (5 / 2) 1 (by norm_num) = [0, 1, 2] := by
    rw [sampleTimes_cons 0 (5 / 2) 1 (by norm_num) (by norm_num)]
    norm_num
    rw [sampleTimes_cons 1 (5 / 2) 1 (by norm_num) (by norm_num)]
    norm_num
    rw [sampleTimes_cons 2 (5 / 2) 1 (by norm_num) (by norm_num)]
    norm_num
    rw [sampleTimes_nil 3 (5 / 2) 1 (by norm_num) (by norm_num)]
  refine ⟨he, ?_⟩
  rw [he]
  norm_num

/-- C8 amended: the sampling clock takes exactly the values
`mission_start + k · step` (k a natural number) that do not exceed
`mission_finish`; consequently `mission_finish` itself is sampled if
and only if it is an exact multiple of `step` past `mission_start`. -/
theorem c8_sampling_amended (start fin step : ℚ) (hstep : 0 < step) :
    (∀ t : ℚ, t ∈ sampleTimes start fin step hstep ↔
      ∃ k : ℕ, t = start + k * step ∧ t ≤ fin) ∧
    (fin ∈ sampleTimes start fin step hstep ↔ ∃ k : ℕ, fin = start + k * step) := by
  refine ⟨mem_sampleTimes start fin step hstep, ?_⟩
  rw [mem_sampleTimes start fin step hstep fin]
  constructor
  · rintro ⟨k, hk, _⟩
    exact ⟨k, hk⟩
  · rintro ⟨k, hk⟩
    exact ⟨k, hk, le_refl fin⟩

/-- C8 witness: with `mission_start = 0`, `mission_finish = 3` and
`step = 1`, the finish time `3 = 0 + 3·1` is sampled. -/
theorem c8_sampling_amended_witness :
    (3 : ℚ) ∈ sampleTimes 0 3 1 (by norm_num) :=
  (c8_sampling_amended 0 3 1 (by norm_num)).2.mpr ⟨3, by norm_num⟩

/-! ### C7 -/

theorem dedup_aux_keys_fresh (l : List Conflict) : ∀ seen : List (String × ℚ),
    ((dedup_aux seen l).map conflictKey).Nodup ∧
    (∀ k ∈ (dedup_aux seen l).map conflictKey, k ∉ seen) := by
  induction l with
  | nil =>
    intro seen
    simp [dedup_aux]
  | cons c cs ih =>
    intro seen
    by_cases hc : conflictKey c ∈ seen
    · simpa [dedup_aux, hc] using ih seen
    · have ih2 := ih (conflictKey c :: seen)
      simp only [dedup_aux, hc, if_false, List.map_cons, List.nodup_cons, List.mem_cons]
      refine ⟨⟨?_, ih2.1⟩, ?_⟩
      · intro hmem
        have := ih2.2 (conflictKey c) hmem
        simp at this
      · rintro k (rfl | hk)
        · exact hc
        · intro hks
          exact ih2.2 k hk (List.mem_cons_of_mem _ hks)

theorem dedup_aux_sublist (l : List Conflict) : ∀ seen : List (String × ℚ),
    List.Sublist (dedup_aux seen l) l := by
  induction l with
  | nil =>
    intro seen
    simp [dedup_aux]
  | cons c cs ih =>
    intro seen
    by_cases hc : conflictKey c ∈ seen
    · simp only [dedup_aux, hc, if_true]
      exact (ih seen).cons c
    · simp only [dedup_aux, hc, if_false]
      exact (ih (conflictKey c :: seen)).cons₂ c

theorem mem_dedup_aux (c : Conflict) (l : List Conflict) : ∀ seen : List (String × ℚ),
    (c ∈ dedup_aux seen l ↔
      conflictKey c ∉ seen ∧
        l.find? (fun c2 => conflictKey c2 == conflictKey c) = some c) := by
  induction l with
  | nil =>
    intro seen
    simp [dedup_aux]
  | cons c0 cs ih =>
    intro seen
    by_cases hkey : conflictKey c0 = conflictKey c
    · have hfind : (c0 :: cs).find? (fun c2 => conflictKey c2 == conflictKey c) = some c0 :=
        List.find?_cons_of_pos _ (by simp [hkey])
      rw [hfind]
      by_cases hc0 : conflictKey c0 ∈ seen
      · simp only [dedup_aux, hc0, if_true]
        rw [ih seen]
        constructor
        · rintro ⟨hns, hfs⟩
          have : c ∈ cs := List.mem_of_find?_eq_some hfs
          exact absurd (hkey ▸ hc0) hns
        · rintro ⟨hns, hc0c⟩
          have : c0 = c := by injection hc0c
          exact absurd (hkey ▸ hc0) (this ▸ hns)
      · simp only [dedup_aux, hc0, if_false, List.mem_cons]
        rw [ih (conflictKey c0 :: seen)]
        constructor
        · rintro (rfl | ⟨hns, hfs⟩)
          · exact ⟨hkey ▸ hc0, rfl⟩
          · exact absurd (List.mem_cons.mpr (Or.inl hkey.symm)) hns
        · rintro ⟨hns, hc0c⟩
          have : c0 = c := by injection hc0c
          exact Or.inl this.symm
    · have hfind : (c0 :: cs).find? (fun c2 => conflictKey c2 == conflictKey c) =
          cs.find? (fun c2 => conflictKey c2 == conflictKey c) :=
        List.find?_cons_of_neg _ (by simp [hkey])
      rw [hfind]
      by_cases hc0 : conflictKey c0 ∈ seen
      · simp only [dedup_aux, hc0, if_true]
        exact ih seen
      · simp only [dedup_aux, hc0, if_false, List.mem_cons]
        rw [ih (conflictKey c0 :: seen)]
        constructor
        · rintro (rfl | ⟨hns, hfs⟩)
          · exact absurd rfl hkey
          · refine ⟨?_, hfs⟩
            intro hks
            exact hns (List.mem_cons_of_mem _ hks)
        · rintro ⟨hns, hfs⟩
          refine Or.inr ⟨?_, hfs⟩
          intro hmem
          rcases List.mem_cons.mp hmem with heq | hks
          · exact hkey heq.symm
          · exact hns hks

/-- C7: in every report of `check_for_conflicts` no `(other_id, time)`
key occurs twice among the conflicts; and whenever the sampling pass
runs (non-empty primary trajectory inside its window), the reported
conflicts are the deduplication of the recorded list: a sublist of the
recorded list (so the survivors keep their original recording order) in
which each surviving conflict is exactly the first recorded occurrence
of its key. -/
theorem c7_dedup_first_occurrence (primary : List TimedWaypoint) (w : ℚ)
    (flights : List SimulatedFlight) (bh bv step : ℚ) (hstep : 0 < step)
    (r : ConflictReport) (hr : r = check_for_conflicts primary w flights bh bv step hstep) :
    ((r.conflicts.map conflictKey).Nodup) ∧
    (∀ hne : primary ≠ [], (primary.getLast hne).time ≤ w →
      r.conflicts = dedup_conflicts (spatial_conflicts primary flights bh bv step hstep) ∧
      List.Sublist (dedup_conflicts (spatial_conflicts primary flights bh bv step hstep))
        (spatial_conflicts primary flights bh bv step hstep) ∧
      (∀ c : Conflict,
        c ∈ dedup_conflicts (spatial_conflicts primary flights bh bv step hstep) ↔
          (spatial_conflicts primary flights bh bv step hstep).find?
            (fun c2 => conflictKey c2 == conflictKey c) = some c)) := by
  subst hr
  constructor
  · cases primary with
    | nil => simp [check_for_conflicts]
    | cons p rest =>
      unfold check_for_conflicts
      dsimp only
      split
      · simp
      · split
        · simp
        · exact (dedup_aux_keys_fresh _ []).1
  · intro hne hle
    match primary, hne with
    | p :: rest, hne =>
      have hwin : ¬ ((p :: rest).getLast (List.cons_ne_nil p rest)).time > w :=
        not_lt.mpr hle
      unfold check_for_conflicts
      dsimp only
      rw [if_neg hwin]
      refine ⟨?_, dedup_aux_sublist _ [], ?_⟩
      · split
        · rename_i hempty
          rw [hempty]
          rfl
        · rfl
      · intro c
        rw [dedup_conflicts, mem_dedup_aux c _ []]
        simp

/-- C7 witness: a concrete check in which the same `(id, rounded time)`
key is recorded twice (a stationary intruder inside the buffer sampled
with a rounding collision) yields a report whose keys are unique. -/
theorem c7_dedup_first_occurrence_witness :
    (((check_for_conflicts [⟨0, 0, 0, 0⟩, ⟨10, 0, 0, 10⟩] 20
        [⟨"SIM", [⟨0, 0, 0, 0⟩, ⟨0, 0, 0, 10⟩]⟩] 5 2 1
        (by norm_num)).conflicts.map conflictKey).Nodup) :=
  (c7_dedup_first_occurrence [⟨0, 0, 0, 0⟩, ⟨10, 0, 0, 10⟩] 20
    [⟨"SIM", [⟨0, 0, 0, 0⟩, ⟨0, 0, 0, 10⟩]⟩] 5 2 1 (by norm_num) _ rfl).1

/-! ### C4 -/

theorem chain_head_le_last (l : List TimedWaypoint) :
    ∀ (a pl : TimedWaypoint),
      List.Chain' (fun p q => p.time ≤ q.time) (a :: l) →
      (a :: l).getLast? = some pl → a.time ≤ pl.time := by
  induction l with
  | nil =>
    intro a pl _ hlast
    simp only [List.getLast?_singleton, Option.some.injEq] at hlast
    rw [hlast]
  | cons b r ih =>
    intro a pl hchain hlast
    rw [List.chain'_cons] at hchain
    rw [List.getLast?_cons_cons] at hlast
    exact le_trans hchain.1 (ih b pl hchain.2 hlast)

theorem find_before_first (traj : List TimedWaypoint) :
    ∀ (t : ℚ) (p0 : TimedWaypoint),
      List.Chain' (fun p q => p.time ≤ q.time) traj →
      traj.head? = some p0 → t < p0.time →
      find_drone_position traj t = none := by
  induction traj with
  | nil =>
    intro t p0 _ hhead _
    exact absurd hhead (by simp)
  | cons a rest ih =>
    intro t p0 hchain hhead hlt
    have ha : a = p0 := by
      simpa using hhead
    subst ha
    cases rest with
    | nil => rfl
    | cons b r =>
      rw [List.chain'_cons] at hchain
      unfold find_drone_position
      rw [if_neg]
      · exact ih t b hchain.2 rfl (lt_of_lt_of_le hlt hchain.1)
      · intro hcond
        exact absurd hcond.1 (not_le.mpr hlt)

theorem find_after_last (traj : List TimedWaypoint) :
    ∀ (t : ℚ) (pl : TimedWaypoint),
      List.Chain' (fun p q => p.time ≤ q.time) traj →
      traj.getLast? = some pl → pl.time < t →
      find_drone_position traj t = none := by
  induction traj with
  | nil =>
    intro t pl _ hlast _
    exact absurd hlast (by simp)
  | cons a rest ih =>
    intro t pl hchain hlast hlt
    cases rest with
    | nil => rfl
    | cons b r =>
      rw [List.chain'_cons] at hchain
      rw [List.getLast?_cons_cons] at hlast
      have hble : b.time ≤ pl.time := chain_head_le_last r b pl hchain.2 hlast
      unfold find_drone_position
      rw [if_neg]
      · exact ih t pl hchain.2 hlast hlt
      · intro hcond
        exact absurd hcond.2 (not_le.mpr (lt_of_le_of_lt hble hlt))

theorem find_inside_isSome (traj : List TimedWaypoint) :
    ∀ (t : ℚ) (p0 pl : TimedWaypoint),
      List.Chain' (fun p q => p.time ≤ q.time) traj →
      2 ≤ traj.length →
      traj.head? = some p0 → traj.getLast? = some pl →
      p0.time ≤ t → t ≤ pl.time →
      (find_drone_position traj t).isSome = true := by
  induction traj with
  | nil =>
    intro t p0 pl _ hlen _ _ _ _
    exact absurd hlen (by simp)
  | cons a rest ih =>
    intro t p0 pl hchain hlen hhead hlast hge hle
    have ha : a = p0 := by
      simpa using hhead
    subst ha
    cases rest with
    | nil => exact absurd hlen (by simp)
    | cons b r =>
      rw [List.chain'_cons] at hchain
      by_cases hb : t ≤ b.time
      · unfold find_drone_position
        rw [if_pos ⟨hge, hb⟩]
        rfl
      · cases r with
        | nil =>
          have hbl : b = pl := by
            simpa using hlast
          subst hbl
          exact absurd hle hb
        | cons c r2 =>
          rw [List.getLast?_cons_cons] at hlast
          unfold find_drone_position
          rw [if_neg (fun hcond => hb hcond.2)]
          exact ih t b pl hchain.2 (by simp) rfl hlast (le_of_lt (not_le.mp hb)) hle

/-- C4: on a trajectory with non-decreasing times (the `Trajectory`
invariant of the data model), the position lookup returns `none` at
every time strictly before the first point's time or strictly after the
last point's time, and returns a position at every time between the
first and last point's times inclusive whenever the trajectory has at
least two points. -/
theorem c4_absence_and_presence (traj : List TimedWaypoint)
    (hsorted : List.Chain' (fun p q => p.time ≤ q.time) traj) (t : ℚ) :
    ((∀ p0, traj.head? = some p0 → t < p0.time → find_drone_position traj t = none) ∧
     (∀ pl, traj.getLast? = some pl → pl.time < t → find_drone_position traj t = none)) ∧
    (2 ≤ traj.length →
      ∀ p0 pl, traj.head? = some p0 → traj.getLast? = some pl →
        p0.time ≤ t → t ≤ pl.time →
        (find_drone_position traj t).isSome = true) := by
  refine ⟨⟨?_, ?_⟩, ?_⟩
  · intro p0 hhead hlt
    exact find_before_first traj t p0 hsorted hhead hlt
  · intro pl hlast hlt
    exact find_after_last traj t pl hsorted hlast hlt
  · intro hlen p0 pl hhead hlast hge hle
    exact find_inside_isSome traj t p0 pl hsorted hlen hhead hlast hge hle

/-- C4 witness: on the two-point trajectory from time `0` to time `10`,
the lookup is absent at `t = -1` and at `t = 11` and present at
`t = 5`. -/
theorem c4_absence_and_presence_witness :
    find_drone_position [⟨0, 0, 0, 0⟩, ⟨1, 0, 0, 10⟩] (-1) = none ∧
    find_drone_position [⟨0, 0, 0, 0⟩, ⟨1, 0, 0, 10⟩] 11 = none ∧
    (find_drone_position [⟨0, 0, 0, 0⟩, ⟨1, 0, 0, 10⟩] 5).isSome = true := by
  have hchain : List.Chain' (fun p q : TimedWaypoint => p.time ≤ q.time)
      [⟨0, 0, 0, 0⟩, ⟨1, 0, 0, 10⟩] := by
    simp [List.chain'_cons]
  refine ⟨?_, ?_, ?_⟩
  · exact (c4_absence_and_presence [⟨0, 0, 0, 0⟩, ⟨1, 0, 0, 10⟩] hchain (-1)).1.1
      ⟨0, 0, 0, 0⟩ rfl (by decide)
  · exact (c4_absence_and_presence [⟨0, 0, 0, 0⟩, ⟨1, 0, 0, 10⟩] hchain 11).1.2
      ⟨1, 0, 0, 10⟩ (by decide) (by decide)
  · exact (c4_absence_and_presence [⟨0, 0, 0, 0⟩, ⟨1, 0, 0, 10⟩] hchain 5).2
      (by decide) ⟨0, 0, 0, 0⟩ ⟨1, 0, 0, 10⟩ rfl (by decide) (by decide) (by decide)

/-! ### C5 -/

/-- The tail of the trajectory emitted by `convertLoop` for a positive
speed: each consecutive waypoint is stamped with the running clock
advanced by leg distance over speed. -/
noncomputable def build_tail (speed : ℝ) : RWaypoint → List RWaypoint → ℝ → List RTimedWaypoint
  | _, [], _ => []
  | w1, w2 :: rest, current_time =>
    let new_time := current_time + calculate_distance w1 w2 / speed
    ⟨w2.x, w2.y, w2.z, new_time⟩ :: build_tail speed w2 rest new_time

theorem convertLoop_pos_eq (speed : ℝ) (hsp : 0 < speed) (ws : List RWaypoint) :
    ∀ (w : RWaypoint) (traj : List RTimedWaypoint) (ct : ℝ),
      convertLoop speed w ws traj ct = Except.ok (traj ++ build_tail speed w ws ct) := by
  induction ws with
  | nil =>
    intro w traj ct
    simp [convertLoop, build_tail]
  | cons w2 rest ih =>
    intro w traj ct
    unfold convertLoop
    rw [if_neg (not_le.mpr hsp)]
    dsimp only
    rw [ih]
    rw [build_tail]
    simp

theorem build_tail_coords (speed : ℝ) (ws : List RWaypoint) :
    ∀ (w : RWaypoint) (ct : ℝ),
      (build_tail speed w ws ct).map (fun p => (p.x, p.y, p.z)) =
        ws.map (fun v => (v.x, v.y, v.z)) := by
  induction ws with
  | nil =>
    intro w ct
    rfl
  | cons w2 rest ih =>
    intro w ct
    rw [build_tail]
    simp only [List.map_cons]
    rw [ih w2 (ct + calculate_distance w w2 / speed)]

theorem build_tail_chain_eq (speed : ℝ) (ws : List RWaypoint) :
    ∀ (w : RWaypoint) (ct : ℝ),
      List.Chain' (fun p q => q.time = p.time + tw_distance p q / speed)
        (⟨w.x, w.y, w.z, ct⟩ :: build_tail speed w ws ct) := by
  induction ws with
  | nil =>
    intro w ct
    exact List.chain'_singleton _
  | cons w2 rest ih =>
    intro w ct
    rw [build_tail]
    rw [List.chain'_cons]
    exact ⟨rfl, ih w2 (ct + calculate_distance w w2 / speed)⟩

theorem tw_distance_nonneg (p q : RTimedWaypoint) : 0 ≤ tw_distance p q :=
  Real.sqrt_nonneg _

theorem build_tail_last_time (speed : ℝ) (ws : List RWaypoint) :
    ∀ (w : RWaypoint) (ct : ℝ),
      (⟨w.x, w.y, w.z, ct⟩ :: build_tail speed w ws ct).getLast?.map (fun p => p.time) =
        some (ct + path_length (⟨w.x, w.y, w.z, ct⟩ :: build_tail speed w ws ct) / speed) := by
  induction ws with
  | nil =>
    intro w ct
    simp [build_tail, path_length]
  | cons w2 rest ih =>
    intro w ct
    rw [build_tail]
    rw [List.getLast?_cons_cons]
    rw [ih w2 (ct + calculate_distance w w2 / speed)]
    have hpl : path_length
        (⟨w.x, w.y, w.z, ct⟩ ::
          ⟨w2.x, w2.y, w2.z, ct + calculate_distance w w2 / speed⟩ ::
            build_tail speed w2 rest (ct + calculate_distance w w2 / speed)) =
        calculate_distance w w2 +
          path_length (⟨w2.x, w2.y, w2.z, ct + calculate_distance w w2 / speed⟩ ::
            build_tail speed w2 rest (ct + calculate_distance w w2 / speed)) := by
      rw [path_length]
      rfl
    rw [hpl, add_div]
    congr 1
    ring

/-- C5: for every mission with positive speed and non-empty waypoint
list, the builder succeeds and its trajectory visits exactly the mission
waypoints' coordinates, starts at the chosen start time, advances each
consecutive time stamp by exactly the leg's 3D Euclidean distance
divided by the speed, has non-decreasing times, and its last time equals
the start time plus the total path length divided by the speed. -/
theorem c5_builder_cumulative_times (mission : PrimaryMission) (actual_start_time : ℝ)
    (hsp : 0 < mission.speed) (hne : mission.waypoints ≠ []) :
    ∃ traj : List RTimedWaypoint,
      convert_mission_to_trajectory mission actual_start_time = Except.ok traj ∧
      traj.map (fun p => (p.x, p.y, p.z)) =
        mission.waypoints.map (fun v => (v.x, v.y, v.z)) ∧
      traj.head?.map (fun p => p.time) = some actual_start_time ∧
      List.Chain' (fun p q => q.time = p.time + tw_distance p q / mission.speed) traj ∧
      List.Chain' (fun p q => p.time ≤ q.time) traj ∧
      traj.getLast?.map (fun p => p.time) =
        some (actual_start_time + path_length traj / mission.speed) := by
  match hw : mission.waypoints, hne with
  | w :: ws, _ =>
    refine ⟨⟨w.x, w.y, w.z, actual_start_time⟩ ::
      build_tail mission.speed w ws actual_start_time, ?_, ?_, ?_, ?_, ?_, ?_⟩
    · unfold convert_mission_to_trajectory
      rw [hw]
      dsimp only
      rw [convertLoop_pos_eq mission.speed hsp ws w
        [⟨w.x, w.y, w.z, actual_start_time⟩] actual_start_time]
      rw [List.singleton_append]
    · simp only [List.map_cons]
      rw [build_tail_coords mission.speed ws w actual_start_time]
    · rfl
    · exact build_tail_chain_eq mission.speed ws w actual_start_time
    · apply List.Chain'.imp ?_ (build_tail_chain_eq mission.speed ws w actual_start_time)
      intro p q hpq
      rw [hpq]
      have : 0 ≤ tw_distance p q / mission.speed :=
        div_nonneg (tw_distance_nonneg p q) (le_of_lt hsp)
      linarith
    · exact build_tail_last_time mission.speed ws w actual_start_time

/-- C5 witness: the mission through `(0,0,0)` and `(3,4,0)` at speed `5`
started at time `0` satisfies all the builder laws. -/
theorem c5_builder_cumulative_times_witness :
    ∃ traj : List RTimedWaypoint,
      convert_mission_to_trajectory ⟨[⟨0, 0, 0⟩, ⟨3, 4, 0⟩], 5, 0, 100⟩ 0 = Except.ok traj ∧
      traj.map (fun p => (p.x, p.y, p.z)) =
        ([⟨0, 0, 0⟩, ⟨3, 4, 0⟩] : List RWaypoint).map (fun v => (v.x, v.y, v.z)) ∧
      traj.head?.map (fun p => p.time) = some 0 ∧
      List.Chain' (fun p q => q.time = p.time + tw_distance p q / 5) traj ∧
      List.Chain' (fun p q => p.time ≤ q.time) traj ∧
      traj.getLast?.map (fun p => p.time) = some (0 + path_length traj / 5) :=
  c5_builder_cumulative_times ⟨[⟨0, 0, 0⟩, ⟨3, 4, 0⟩], 5, 0, 100⟩ 0 (by norm_num) (by simp)

/-! ### C6 -/

theorem calculate_distance_nonneg (a b : RWaypoint) : 0 ≤ calculate_distance a b :=
  Real.sqrt_nonneg _

theorem calculate_distance_eq_zero (a b : RWaypoint) :
    calculate_distance a b = 0 ↔ a.x = b.x ∧ a.y = b.y ∧ a.z = b.z := by
  constructor
  · intro h
    have hS : (a.x - b.x) ^ 2 + (a.y - b.y) ^ 2 + (a.z - b.z) ^ 2 ≤ 0 :=
      Real.sqrt_eq_zero'.mp h
    have hx2 : (a.x - b.x) ^ 2 = 0 := by
      nlinarith [sq_nonneg (a.x - b.x), sq_nonneg (a.y - b.y), sq_nonneg (a.z - b.z)]
    have hy2 : (a.y - b.y) ^ 2 = 0 := by
      nlinarith [sq_nonneg (a.x - b.x), sq_nonneg (a.y - b.y), sq_nonneg (a.z - b.z)]
    have hz2 : (a.z - b.z) ^ 2 = 0 := by
      nlinarith [sq_nonneg (a.x - b.x), sq_nonneg (a.y - b.y), sq_nonneg (a.z - b.z)]
    exact ⟨sub_eq_zero.mp (sq_eq_zero_iff.mp hx2),
      sub_eq_zero.mp (sq_eq_zero_iff.mp hy2),
      sub_eq_zero.mp (sq_eq_zero_iff.mp hz2)⟩
  · rintro ⟨h1, h2, h3⟩
    unfold calculate_distance
    rw [h1, h2, h3]
    simp

theorem not_chain'_dist_zero_iff (l : List RWaypoint) :
    ¬ List.Chain' (fun a b => calculate_distance a b = 0) l ↔
      ∃ pr ∈ l.zip l.tail, calculate_distance pr.1 pr.2 ≠ 0 := by
  induction l with
  | nil => simp
  | cons a t ih =>
    cases t with
    | nil => simp
    | cons b r =>
      constructor
      · intro hnc
        by_cases hab : calculate_distance a b = 0
        · have hnc2 : ¬ List.Chain' (fun a b => calculate_distance a b = 0) (b :: r) :=
            fun hc => hnc (List.chain'_cons.mpr ⟨hab, hc⟩)
          rcases ih.mp hnc2 with ⟨pr, hmem, hne⟩
          refine ⟨pr, ?_, hne⟩
          simp only [List.tail_cons, List.zip_cons_cons, List.mem_cons]
          right
          simpa using hmem
        · exact ⟨(a, b), by simp [List.zip_cons_cons], hab⟩
      · rintro ⟨pr, hmem, hne⟩ hchain
        rw [List.chain'_cons] at hchain
        simp only [List.tail_cons, List.zip_cons_cons, List.mem_cons] at hmem
        rcases hmem with rfl | hmem2
        · exact hne hchain.1
        · exact ih.mpr ⟨pr, by simpa using hmem2, hne⟩ hchain.2

theorem convertLoop_err_iff (speed : ℝ) (hsp : speed ≤ 0) (ws : List RWaypoint) :
    ∀ (w : RWaypoint) (traj : List RTimedWaypoint) (ct : ℝ),
      (∃ e, convertLoop speed w ws traj ct = Except.error e) ↔
        ¬ List.Chain' (fun a b => calculate_distance a b = 0) (w :: ws) := by
  induction ws with
  | nil =>
    intro w traj ct
    constructor
    · rintro ⟨e, he⟩
      exact Except.noConfusion he
    · intro hnc
      exact absurd (List.chain'_singleton w) hnc
  | cons w2 rest ih =>
    intro w traj ct
    rw [List.chain'_cons]
    unfold convertLoop
    rw [if_pos hsp]
    by_cases hd : 0 < calculate_distance w w2
    · rw [if_pos hd]
      constructor
      · intro _ hch
        rw [hch.1] at hd
        exact lt_irrefl 0 hd
      · intro _
        exact ⟨_, rfl⟩
    · rw [if_neg hd]
      have hd0 : calculate_distance w w2 = 0 :=
        le_antisymm (not_lt.mp hd) (calculate_distance_nonneg w w2)
      split
      · exact (ih w2 traj ct).trans (not_congr (and_iff_right hd0)).symm
      · exact (ih w2 _ ct).trans (not_congr (and_iff_right hd0)).symm

theorem convertLoop_stationary (speed : ℝ) (hsp : speed ≤ 0) (ws : List RWaypoint) :
    ∀ (w : RWaypoint) (p : RTimedWaypoint) (ct : ℝ),
      List.Chain' (fun a b => calculate_distance a b = 0) (w :: ws) →
      p.x = w.x → p.y = w.y → p.z = w.z →
      convertLoop speed w ws [p] ct = Except.ok [p] := by
  induction ws with
  | nil =>
    intro w p ct _ _ _ _
    rfl
  | cons w2 rest ih =>
    intro w p ct hchain hx hy hz
    rw [List.chain'_cons] at hchain
    have hco := (calculate_distance_eq_zero w w2).mp hchain.1
    unfold convertLoop
    rw [if_pos hsp]
    rw [if_neg (by rw [hchain.1]; exact lt_irrefl 0)]
    rw [if_pos ⟨p, List.mem_singleton_self p,
      by rw [hx, hco.1], by rw [hy, hco.2.1], by rw [hz, hco.2.2]⟩]
    exact ih w2 p ct hchain.2 (hx.trans hco.1) (hy.trans hco.2.1) (hz.trans hco.2.2)

/-- C6: the builder fails (raising the `ValueError` standing for
`InvalidSpeed`) if and only if the speed is non-positive and some pair
of consecutive waypoints is at nonzero distance; and when the speed is
non-positive and every consecutive pair coincides, the builder succeeds
and the duplicate-suppression collapses the whole mission to the single
starting point stamped at the start time. -/
theorem c6_invalid_speed_iff (mission : PrimaryMission) (actual_start_time : ℝ) :
    ((∃ e, convert_mission_to_trajectory mission actual_start_time = Except.error e) ↔
      (mission.speed ≤ 0 ∧
        ∃ pr ∈ mission.waypoints.zip mission.waypoints.tail,
          calculate_distance pr.1 pr.2 ≠ 0)) ∧
    (mission.speed ≤ 0 →
      (∀ pr ∈ mission.waypoints.zip mission.waypoints.tail,
        calculate_distance pr.1 pr.2 = 0) →
      ∀ w ws, mission.waypoints = w :: ws →
        convert_mission_to_trajectory mission actual_start_time =
          Except.ok [⟨w.x, w.y, w.z, actual_start_time⟩]) := by
  constructor
  · rw [← not_chain'_dist_zero_iff mission.waypoints]
    by_cases hsp : mission.speed ≤ 0
    · rcases hWL : mission.waypoints with _ | ⟨w, ws⟩
      · have hok : convert_mission_to_trajectory mission actual_start_time = Except.ok [] := by
          unfold convert_mission_to_trajectory
          rw [hWL]
        rw [hok]
        constructor
        · rintro ⟨e, he⟩
          exact Except.noConfusion he
        · rintro ⟨_, hnc⟩
          exact absurd List.chain'_nil hnc
      · have hconv : convert_mission_to_trajectory mission actual_start_time =
            convertLoop mission.speed w ws
              [⟨w.x, w.y, w.z, actual_start_time⟩] actual_start_time := by
          unfold convert_mission_to_trajectory
          rw [hWL]
        rw [hconv]
        rw [convertLoop_err_iff mission.speed hsp ws w
          [⟨w.x, w.y, w.z, actual_start_time⟩] actual_start_time]
        constructor
        · intro hnc
          exact ⟨hsp, hnc⟩
        · rintro ⟨_, hnc⟩
          exact hnc
    · have hpos : 0 < mission.speed := not_le.mp hsp
      rcases hWL : mission.waypoints with _ | ⟨w, ws⟩
      · have hok : convert_mission_to_trajectory mission actual_start_time = Except.ok [] := by
          unfold convert_mission_to_trajectory
          rw [hWL]
        rw [hok]
        constructor
        · rintro ⟨e, he⟩
          exact Except.noConfusion he
        · rintro ⟨hle, _⟩
          exact absurd hle hsp
      · have hok : convert_mission_to_trajectory mission actual_start_time =
            Except.ok ([⟨w.x, w.y, w.z, actual_start_time⟩] ++
              build_tail mission.speed w ws actual_start_time) := by
          unfold convert_mission_to_trajectory
          rw [hWL]
          exact convertLoop_pos_eq mission.speed hpos ws w _ actual_start_time
        rw [hok]
        constructor
        · rintro ⟨e, he⟩
          exact Except.noConfusion he
        · rintro ⟨hle, _⟩
          exact absurd hle hsp
  · intro hsp hall w ws hWL
    have hchain : List.Chain' (fun a b => calculate_distance a b = 0) mission.waypoints := by
      by_contra hnc
      rcases (not_chain'_dist_zero_iff mission.waypoints).mp hnc with ⟨pr, hmem, hne⟩
      exact hne (hall pr hmem)
    unfold convert_mission_to_trajectory
    rw [hWL]
    exact convertLoop_stationary mission.speed hsp ws w
      ⟨w.x, w.y, w.z, actual_start_time⟩ actual_start_time
      (hWL ▸ hchain) rfl rfl rfl

/-- C6 witness: a single waypoint repeated three times at speed `0`
builds successfully into a single-point trajectory. -/
theorem c6_invalid_speed_iff_witness :
    convert_mission_to_trajectory ⟨[⟨0, 0, 0⟩, ⟨0, 0, 0⟩, ⟨0, 0, 0⟩], 0, 0, 100⟩ 0 =
      Except.ok [⟨0, 0, 0, 0⟩] := by
  refine (c6_invalid_speed_iff ⟨[⟨0, 0, 0⟩, ⟨0, 0, 0⟩, ⟨0, 0, 0⟩], 0, 0, 100⟩ 0).2
    (by norm_num) ?_ ⟨0, 0, 0⟩ [⟨0, 0, 0⟩, ⟨0, 0, 0⟩] rfl
  intro pr hmem
  simp only [List.tail_cons, List.zip_cons_cons, List.zip_nil_right, List.mem_cons] at hmem
  rcases hmem with rfl | hmem2
  · norm_num [calculate_distance]
  · rcases hmem2 with rfl | hmem3
    · norm_num [calculate_distance]
    · simp at hmem3
